import Mathlib

/-!
# Verification of the plenoptic perceptual-distance metrics

Shallow embedding of `plenoptic/metric/perceptual_distance.py` and
`plenoptic/synthesize/synthesis.py`, over exact real arithmetic.

Tensors with axes (batch, channel, height, width) are modelled as total
functions `ℕ → ℕ → ℕ → ℕ → ℝ`; the shape is carried separately in the
statements (out-of-range indices are unconstrained).  Lean's convention
`x / 0 = 0` stands in for the float `nan` produced by a `0/0` in torch —
at every place where this matters it is called out in the theorem's
doc comment.
-/

open Finset

/-- A 4d tensor (batch, channel, height, width), unbounded-index model. -/
def Img : Type := ℕ → ℕ → ℕ → ℕ → ℝ

/-- `_gaussian(window_size, 1.5)`: 1d Gaussian `exp(-(x - size//2)^2 / (2·1.5^2))`
(the code's `mu = window_size//2` is ℕ division). -/
noncomputable def gauss1d (s : ℕ) (x : ℕ) : ℝ :=
  Real.exp (-((x : ℝ) - ((s / 2 : ℕ) : ℝ)) ^ 2 / (2 * 1.5 ^ 2))

/-- Spatial sum of the un-normalized 2d window (outer product of `gauss1d`
with itself), the quantity `window.sum((-1, -2))` the code divides by. -/
noncomputable def windowTotal (s : ℕ) : ℝ :=
  ∑ p ∈ range s, ∑ q ∈ range s, gauss1d s p * gauss1d s q

/-- `create_window(window_size, n_channels)`: the channel-replicated,
per-channel-normalized 2d Gaussian window.  Indices: (channel, 1, h, w);
the channel and singleton axes do not affect the value (the code's
`expand` replicates the same 2d slice). -/
noncomputable def create_window (s : ℕ) : Img :=
  fun _k _o p q => gauss1d s p * gauss1d s q / windowTotal s

/-- `F.conv2d(img, window, padding=0, groups=n_channels)`: valid-mode
cross-correlation, each channel convolved with its own (identical) kernel
slice `window[k][0]`. -/
noncomputable def conv2dValid (s : ℕ) (img win : Img) : Img :=
  fun n k i j => ∑ p ∈ range s, ∑ q ∈ range s, img n k (i + p) (j + q) * win k 0 p q

/-- `real_size = min(11, height, width)` from `_ssim_parts`. -/
def realSize (h w : ℕ) : ℕ := min 11 (min h w)

/-- `C1 = (0.01 * dynamic_range) ** 2`. -/
noncomputable def C1const (d : ℝ) : ℝ := (0.01 * d) ^ 2

/-- `C2 = (0.03 * dynamic_range) ** 2`. -/
noncomputable def C2const (d : ℝ) : ℝ := (0.03 * d) ^ 2

/-- `mu = F.conv2d(img, window, padding=0, groups=n_channels)` with the
window `_ssim_parts` builds for an input of height `h` and width `w`. -/
noncomputable def muMap (h w : ℕ) (img : Img) : Img :=
  conv2dValid (realSize h w) img (create_window (realSize h w))

/-- `sigma_sq = F.conv2d(img * img, window, ...) - mu.pow(2)`:
windowed local variance. -/
noncomputable def sigmaSqMap (h w : ℕ) (img : Img) : Img :=
  fun n k i j =>
    conv2dValid (realSize h w) (fun n k i j => img n k i j * img n k i j)
      (create_window (realSize h w)) n k i j - muMap h w img n k i j ^ 2

/-- `sigma12 = F.conv2d(img1 * img2, window, ...) - mu1 * mu2`:
windowed local covariance. -/
noncomputable def sigma12Map (h w : ℕ) (img1 img2 : Img) : Img :=
  fun n k i j =>
    conv2dValid (realSize h w) (fun n k i j => img1 n k i j * img2 n k i j)
      (create_window (realSize h w)) n k i j -
      muMap h w img1 n k i j * muMap h w img2 n k i j

/-- `contrast_map = (2*sigma12 + C2) / (sigma1_sq + sigma2_sq + C2)`. -/
noncomputable def contrastMap (d : ℝ) (h w : ℕ) (img1 img2 : Img) : Img :=
  fun n k i j =>
    (2 * sigma12Map h w img1 img2 n k i j + C2const d) /
      (sigmaSqMap h w img1 n k i j + sigmaSqMap h w img2 n k i j + C2const d)

/-- `ssim_map = ((2*mu1_mu2 + C1) / (mu1_sq + mu2_sq + C1)) * contrast_map`
(line 158, the value actually returned; line 157 is overwritten). -/
noncomputable def ssimMap (d : ℝ) (h w : ℕ) (img1 img2 : Img) : Img :=
  fun n k i j =>
    (2 * muMap h w img1 n k i j * muMap h w img2 n k i j + C1const d) /
      (muMap h w img1 n k i j ^ 2 + muMap h w img2 n k i j ^ 2 + C1const d) *
      contrastMap d h w img1 img2 n k i j

/-- `torch.matmul` on 4d tensors: batched matrix product over the last two
axes; `m` is the shared inner dimension (the number of columns of `A`,
which torch requires to equal the number of rows of `B`; for the maps of
`_ssim_parts` this forces a square output, i.e. `height = width`). -/
noncomputable def matmulLast2 (m : ℕ) (A B : Img) : Img :=
  fun n k i j => ∑ t ∈ range m, A n k i t * B n k t j

/-- `weight = torch.log(torch.matmul(1 + sigma1_sq/C2, 1 + sigma2_sq/C2))`:
the stability weight exactly as the SOURCE computes it (line 155), with a
batched MATRIX product of the two factor maps.  The inner dimension is the
width `w - real_size + 1` of the factor maps. -/
noncomputable def weightCode (d : ℝ) (h w : ℕ) (img1 img2 : Img) : Img :=
  fun n k i j =>
    Real.log
      (matmulLast2 (w - realSize h w + 1)
        (fun n k i j => 1 + sigmaSqMap h w img1 n k i j / C2const d)
        (fun n k i j => 1 + sigmaSqMap h w img2 n k i j / C2const d) n k i j)

/-- The stability weight as the SPEC (and the code's own docstring,
`ssim` Notes) states it: the ELEMENTWISE logarithm of the elementwise
product `(1 + sigma1_sq/C2) * (1 + sigma2_sq/C2)`.  Written from the
spec's words, for comparison with `weightCode`. -/
noncomputable def weightSpec (d : ℝ) (h w : ℕ) (img1 img2 : Img) : Img :=
  fun n k i j =>
    Real.log
      ((1 + sigmaSqMap h w img1 n k i j / C2const d) *
        (1 + sigmaSqMap h w img2 n k i j / C2const d))

/-- `t.mean((-1, -2))` for a map whose spatial extent is `H × W`. -/
noncomputable def meanSpatial (H W : ℕ) (t : Img) : ℕ → ℕ → ℝ :=
  fun n k => (∑ i ∈ range H, ∑ j ∈ range W, t n k i j) / ((H : ℝ) * (W : ℝ))

/-- `ssim(img1, img2, weighted=False, dynamic_range)`: spatial mean of the
SSIM map (the map's spatial extent is `(h-s+1) × (w-s+1)` under valid
convolution with the `s × s` window, `s = real_size`). -/
noncomputable def ssimU (d : ℝ) (h w : ℕ) (img1 img2 : Img) : ℕ → ℕ → ℝ :=
  meanSpatial (h - realSize h w + 1) (w - realSize h w + 1) (ssimMap d h w img1 img2)

/-- Spatial sum of the stability weight map (denominator of weighted SSIM). -/
noncomputable def weightTotal (d : ℝ) (h w : ℕ) (img1 img2 : Img) : ℕ → ℕ → ℝ :=
  fun n k =>
    ∑ i ∈ range (h - realSize h w + 1), ∑ j ∈ range (w - realSize h w + 1),
      weightCode d h w img1 img2 n k i j

/-- `ssim(img1, img2, weighted=True, dynamic_range)`:
`(map_ssim*weight).sum((-1,-2)) / weight.sum((-1,-2))`.  Lean's `x / 0 = 0`
models the float `nan` the code produces when the weight map sums to 0. -/
noncomputable def ssimW (d : ℝ) (h w : ℕ) (img1 img2 : Img) : ℕ → ℕ → ℝ :=
  fun n k =>
    (∑ i ∈ range (h - realSize h w + 1), ∑ j ∈ range (w - realSize h w + 1),
        ssimMap d h w img1 img2 n k i j * weightCode d h w img1 img2 n k i j) /
      weightTotal d h w img1 img2 n k

/-! ## The window gate of `_ssim_parts` (lines 125-129) -/

/-- `window.sum((-1, -2))[k][o]`: spatial sum of one channel slice of a
window whose spatial extent is `s × t`. -/
noncomputable def chanSum (s t : ℕ) (win : Img) (k o : ℕ) : ℝ :=
  ∑ p ∈ range s, ∑ q ∈ range t, win k o p q

open Classical in
/-- Lines 125-127 of `_ssim_parts`: IF any per-channel spatial sum is
STRICTLY GREATER than 1, warn (first component `true`) and renormalize the
whole window by its per-channel sums; otherwise the window passes through
untouched, with no warning.  The window has shape `(c, o, s, t)`. -/
noncomputable def checkWindow (c o s t : ℕ) (win : Img) : Bool × Img :=
  if ∃ k ∈ range c, ∃ j ∈ range o, 1 < chanSum s t win k j then
    (true, fun k j p q => win k j p q / chanSum s t win k j)
  else
    (false, win)

/-- Lines 125-129 of `_ssim_parts` as one gate: the sum check/renormalize,
then `raise` (modelled as `none`) when `window.ndim != 4`. -/
noncomputable def windowGate (ndim c o s t : ℕ) (win : Img) : Option (Bool × Img) :=
  if ndim = 4 then some (checkWindow c o s t win) else none

/-! ## Shape-level model of the metric entry points (for the broadcast law)

A shape is the quadruple (batch, channel, height, width).  `none` models a
raised exception. -/

/-- Shape behavior of `ssim`/`ssim_map` (`_ssim_parts` lines 112-119 plus
the shape semantics of the grouped convolutions and broadcasting):
1. raise if the two spatial extents differ (checked first, before any
   windowed computation);
2. raise if the batch sizes differ and neither is 1;
3. the two convolutions then require equal channel counts (grouped conv
   with `groups = img1`'s channel count — torch raises otherwise);
4. elementwise ops broadcast the batch axis, `.mean((-1,-2))` leaves
   shape `(max b1 b2, c1)`. -/
def ssimShape (b1 c1 h1 w1 b2 c2 h2 w2 : ℕ) : Option (ℕ × ℕ) :=
  if ¬(h2 = h1 ∧ w2 = w1) then none
  else if b1 ≠ b2 ∧ b1 ≠ 1 ∧ b2 ≠ 1 then none
  else if c2 ≠ c1 then none
  else some (max b1 b2, c1)

/-- Shape of the tensor produced by `create_window(s, c)`: the code's
`expand(n_channels, 1, window_size, window_size)` call. -/
def createWindowShape (s c : ℕ) : List ℕ := [c, 1, s, s]

/-- Shape behavior of `nlpd` (lines 372-380).  `torch.cat((IM_1, IM_2), 0)`
requires the non-batch dims to agree (else raise); the grouped 1-filter
normalization convolution requires a single channel (else raise); the
Laplacian decomposition itself is batch-preserving (modelled from the
spec: the collaborator decomposes an image batch into per-scale subband
tensors sharing the batch indexing).  `y[i][0] - y[i][1]` then indexes
batch elements 0 and 1 of the concatenation — it needs `b1 + b2 ≥ 2`,
which always holds, and NEVER validates the batch sizes against each
other.  The result of `torch.stack(dist).mean()` is a 0-d scalar, whose
shape is the empty list. -/
def nlpdShape (b1 c1 h1 w1 b2 c2 h2 w2 : ℕ) : Option (List ℕ) :=
  if ¬(c2 = c1 ∧ h2 = h1 ∧ w2 = w1) then none
  else if c1 ≠ 1 then none
  else if b1 + b2 < 2 then none
  else some []

/-! ## Value-level model of `nlpd` -/

/-- `torch.cat((A, B), 0)` for `A` with batch size `b1`. -/
def catBatch (b1 : ℕ) (A B : Img) : Img :=
  fun n k i j => if n < b1 then A n k i j else B (n - b1) k i j

/-- Zero-padded read of a 2d slice of extent `h × w` at integer indices
(out-of-range reads give 0, the semantics of conv2d padding). -/
def padRead (h w : ℕ) (x : ℕ → ℕ → ℝ) (i j : ℤ) : ℝ :=
  if 0 ≤ i ∧ i < (h : ℤ) ∧ 0 ≤ j ∧ j < (w : ℤ) then x i.toNat j.toNat else 0

/-- `F.conv2d(·, filt, padding=2, groups=channel)` on one (batch, channel)
slice of spatial extent `h × w`, with a `K × K` kernel: same-size output
(for the bundled 5×5 filters), zero padding of two on each side. -/
noncomputable def convPad2 (K h w : ℕ) (x : ℕ → ℕ → ℝ) (filt : ℕ → ℕ → ℝ)
    (p q : ℕ) : ℝ :=
  ∑ u ∈ range K, ∑ v ∈ range K,
    padRead h w x ((p : ℤ) + (u : ℤ) - 2) ((q : ℤ) + (v : ℤ) - 2) * filt u v

/-- `normalized_laplacian_pyramid` (lines 305-332): divide each scale's
subband by `sigma[i] +` the padded convolution of its absolute value with
the scale's pooling filter.  The Laplacian decomposition `lap` and the
file-resident filters/sigmas are parameters: modelled from the spec, they
are an external collaborator (`decompose(image_batch) -> ordered list of
subband tensors`) and bundled per-scale coefficient data.  `sH i × sW i`
is the spatial extent of scale `i`. -/
noncomputable def normalizedLapPyr (lap : Img → Fin 6 → Img) (K : ℕ)
    (filt : Fin 6 → ℕ → ℕ → ℝ) (sigma : Fin 6 → ℝ) (sH sW : Fin 6 → ℕ)
    (im : Img) : Fin 6 → Img :=
  fun i => fun n k p q =>
    lap im i n k p q /
      (sigma i + convPad2 K (sH i) (sW i) (fun a b => |lap im i n k a b|) (filt i) p q)

/-- `torch.mean(f ** 2)` over one batch element of shape `(c, h, w)`. -/
noncomputable def meanSqCHW (c h w : ℕ) (f : ℕ → ℕ → ℕ → ℝ) : ℝ :=
  (∑ k ∈ range c, ∑ p ∈ range h, ∑ q ∈ range w, f k p q ^ 2) /
    ((c : ℝ) * (h : ℝ) * (w : ℝ))

/-- `nlpd(IM_1, IM_2)` (lines 372-380) for two batch-1 inputs with `c`
channels: concatenate along the batch axis, build the normalized Laplacian
pyramid, and for each of the 6 scales take
`sqrt(mean((y[i][0] - y[i][1])**2) + 1e-10)`; `torch.stack(dist).mean()`
is the sum of the six values divided by 6. -/
noncomputable def nlpd (lap : Img → Fin 6 → Img) (K : ℕ)
    (filt : Fin 6 → ℕ → ℕ → ℝ) (sigma : Fin 6 → ℝ) (sH sW : Fin 6 → ℕ)
    (c : ℕ) (A B : Img) : ℝ :=
  (∑ i : Fin 6,
      Real.sqrt
        (meanSqCHW c (sH i) (sW i)
            (fun k p q =>
              normalizedLapPyr lap K filt sigma sH sW (catBatch 1 A B) i 0 k p q -
                normalizedLapPyr lap K filt sigma sH sW (catBatch 1 A B) i 1 k p q) +
          1e-10)) / 6

/-- The `nlpd` aggregation as the SPEC words it: split each normalized
scale of the concatenated batch into its image-1 half and image-2 half
along the batch axis (for two batch-1 inputs the halves are batch
elements 0 and 1), per-scale distance `sqrt(mean((half1 - half2)^2) +
1e-10)` with the epsilon added inside the square root, final distance the
mean `(1/6)·Σ` of the six per-scale values.  Written from the spec's
words, for comparison with `nlpd`. -/
noncomputable def nlpdSpecFormula (lap : Img → Fin 6 → Img) (K : ℕ)
    (filt : Fin 6 → ℕ → ℕ → ℝ) (sigma : Fin 6 → ℝ) (sH sW : Fin 6 → ℕ)
    (c : ℕ) (A B : Img) : ℝ :=
  (1 / 6 : ℝ) * ∑ i : Fin 6,
    Real.sqrt
      ((∑ k ∈ range c, ∑ p ∈ range (sH i), ∑ q ∈ range (sW i),
            (normalizedLapPyr lap K filt sigma sH sW (catBatch 1 A B) i 0 k p q -
              normalizedLapPyr lap K filt sigma sH sW (catBatch 1 A B) i 1 k p q) ^ 2) /
          ((c : ℝ) * (sH i : ℝ) * (sW i : ℝ)) + 1e-10)

/-- Modelled from the spec: the external Laplacian decomposition acts
independently on each batch element (§3, §6 — the pyramid of a batch is
the per-scale stack of the pyramids of its elements, so equal input
slices give equal output slices). -/
def BatchwisePyr (lap : Img → Fin 6 → Img) : Prop :=
  ∀ (im im' : Img) (i : Fin 6) (n m : ℕ),
    (∀ k p q, im n k p q = im' m k p q) → ∀ k p q, lap im i n k p q = lap im' i m k p q

/-! ## Model of `Synthesis.load` (synthesis.py lines 101-149)

The object's attribute store is a map `String → Option V`; `load` is the
straight-line sequence of steps the Python method performs: the
`check_attributes` loop, then the `check_loss_functions` loop, then the
assignment loop over the loaded dictionary.  The comparison semantics
(`allclose` / `==` / behavioral probing of callables, and the possible
`hasattr`/KeyError failures) are abstracted into boolean oracles reading
the CURRENT store, exactly as the Python checks read `getattr(self, k)`.
An error result carries the store as it stood when the exception was
raised. -/

/-- One primitive step of `Synthesis.load`. -/
inductive LoadStep (V : Type) where
  | checkAttr (k : String)
  | checkLoss (k : String)
  | assign (k : String) (v : V)

/-- `setattr(self, k, v)`. -/
def setAttr {V : Type} (s : String → Option V) (k : String) (v : V) :
    String → Option V :=
  fun k' => if k' = k then some v else s k'

/-- Run the steps in order, threading the attribute store; a failing check
stops execution and reports the store at that moment (second component
`some k` names the failing check). -/
def runSteps {V : Type} (attrOk lossOk : (String → Option V) → String → Bool) :
    List (LoadStep V) → (String → Option V) → (String → Option V) × Option String
  | [], s => (s, none)
  | LoadStep.checkAttr k :: rest, s =>
    if attrOk s k then runSteps attrOk lossOk rest s else (s, some k)
  | LoadStep.checkLoss k :: rest, s =>
    if lossOk s k then runSteps attrOk lossOk rest s else (s, some k)
  | LoadStep.assign k v :: rest, s => runSteps attrOk lossOk rest (setAttr s k v)

/-- The step sequence of `Synthesis.load`: all `check_attributes`
comparisons, then all `check_loss_functions` probes, then — only after
every check — the `setattr` loop over the loaded dictionary (lines
111-149). -/
def loadSteps {V : Type} (checkAttrs checkLosses : List String)
    (tmpDict : List (String × V)) : List (LoadStep V) :=
  checkAttrs.map LoadStep.checkAttr ++ checkLosses.map LoadStep.checkLoss ++
    tmpDict.map (fun kv => LoadStep.assign kv.1 kv.2)

/-- `Synthesis.load`: run the step sequence on the object's store. -/
def synthesisLoad {V : Type} (attrOk lossOk : (String → Option V) → String → Bool)
    (checkAttrs checkLosses : List String) (tmpDict : List (String × V))
    (s0 : String → Option V) : (String → Option V) × Option String :=
  runSteps attrOk lossOk (loadSteps checkAttrs checkLosses tmpDict) s0

/-! ## Concrete inputs used by counterexamples and witnesses -/

/-- Constant image of value 1/2. -/
noncomputable def constHalf : Img := fun _ _ _ _ => (1 / 2 : ℝ)

/-- Constant image of value 1. -/
noncomputable def constOne : Img := fun _ _ _ _ => (1 : ℝ)

/-- Constant image of value −1 (in range for `dynamic_range = 2`). -/
noncomputable def constNegOne : Img := fun _ _ _ _ => (-1 : ℝ)

/-- Constant image of value 0. -/
noncomputable def constZero : Img := fun _ _ _ _ => (0 : ℝ)

/-- A 1×1×1×1 window holding 1/2: its channel sum is 1/2 ≠ 1. -/
noncomputable def halfWindow : Img := fun _ _ _ _ => (1 / 2 : ℝ)

/-- A 1×1×1×1 window holding 2: its channel sum is 2 > 1. -/
noncomputable def twoWindow : Img := fun _ _ _ _ => (2 : ℝ)

/-- The identity "decomposition": every scale is the input itself.  Used
to instantiate the spec-modelled pyramid parameter in witnesses. -/
def idLap : Img → Fin 6 → Img := fun im _ => im

/-! ## Helper lemmas -/

theorem gauss1d_pos (s x : ℕ) : 0 < gauss1d s x :=
  Real.exp_pos _

theorem windowTotal_pos (s : ℕ) (hs : 1 ≤ s) : 0 < windowTotal s := by
  unfold windowTotal
  have hne : (range s).Nonempty := nonempty_range_iff.mpr (by omega)
  refine sum_pos (fun p _ => sum_pos (fun q _ => ?_) hne) hne
  exact mul_pos (gauss1d_pos s p) (gauss1d_pos s q)

theorem create_window_nonneg (s k o p q : ℕ) : 0 ≤ create_window s k o p q := by
  unfold create_window
  rcases Nat.eq_zero_or_pos s with hs | hs
  · subst hs
    simp [windowTotal]
  · exact div_nonneg (mul_nonneg (gauss1d_pos s p).le (gauss1d_pos s q).le)
      (windowTotal_pos s hs).le

theorem window_sum_one (s : ℕ) (hs : 1 ≤ s) (k o : ℕ) :
    ∑ p ∈ range s, ∑ q ∈ range s, create_window s k o p q = 1 := by
  unfold create_window
  simp_rw [← sum_div]
  exact div_self (windowTotal_pos s hs).ne'

theorem realSize_pos (h w : ℕ) (hh : 1 ≤ h) (hw : 1 ≤ w) : 1 ≤ realSize h w := by
  unfold realSize
  exact le_min (by norm_num) (le_min hh hw)

theorem conv_const_eq (s : ℕ) (a : ℝ) (win : Img) (n k i j : ℕ) :
    conv2dValid s (fun _ _ _ _ => a) win n k i j =
      a * ∑ p ∈ range s, ∑ q ∈ range s, win k 0 p q := by
  unfold conv2dValid
  simp_rw [mul_sum]

theorem muMap_const (h w : ℕ) (hh : 1 ≤ h) (hw : 1 ≤ w) (a : ℝ) (n k i j : ℕ) :
    muMap h w (fun _ _ _ _ => a) n k i j = a := by
  unfold muMap
  rw [conv_const_eq, window_sum_one _ (realSize_pos h w hh hw), mul_one]

theorem sigmaSqMap_const (h w : ℕ) (hh : 1 ≤ h) (hw : 1 ≤ w) (a : ℝ) (n k i j : ℕ) :
    sigmaSqMap h w (fun _ _ _ _ => a) n k i j = 0 := by
  unfold sigmaSqMap
  rw [muMap_const h w hh hw, conv_const_eq, window_sum_one _ (realSize_pos h w hh hw),
    mul_one]
  ring

theorem wvar_nonneg {ι : Type} (S : Finset ι) (ω x : ι → ℝ)
    (h0 : ∀ i ∈ S, 0 ≤ ω i) (h1 : ∑ i ∈ S, ω i = 1) :
    (∑ i ∈ S, ω i * x i) ^ 2 ≤ ∑ i ∈ S, ω i * x i ^ 2 := by
  have hcs := Finset.sum_sq_le_sum_mul_sum_of_sq_eq_mul S
    (r := fun i => ω i * x i) (f := fun i => ω i) (g := fun i => ω i * x i ^ 2)
    h0 (fun i hi => mul_nonneg (h0 i hi) (sq_nonneg _)) (fun i hi => by ring)
  rwa [h1, one_mul] at hcs

theorem wcov_sq_le_wvar_mul_wvar {ι : Type} (S : Finset ι) (ω x y : ι → ℝ)
    (h0 : ∀ i ∈ S, 0 ≤ ω i) (h1 : ∑ i ∈ S, ω i = 1) :
    (∑ i ∈ S, ω i * (x i * y i) - (∑ i ∈ S, ω i * x i) * ∑ i ∈ S, ω i * y i) ^ 2 ≤
      (∑ i ∈ S, ω i * x i ^ 2 - (∑ i ∈ S, ω i * x i) ^ 2) *
        (∑ i ∈ S, ω i * y i ^ 2 - (∑ i ∈ S, ω i * y i) ^ 2) := by
  set mx := ∑ i ∈ S, ω i * x i with hmx
  set my := ∑ i ∈ S, ω i * y i with hmy
  have hXY : ∑ i ∈ S, ω i * ((x i - mx) * (y i - my)) =
      ∑ i ∈ S, ω i * (x i * y i) - mx * my := by
    have hterm : ∀ i, ω i * ((x i - mx) * (y i - my)) =
        ω i * (x i * y i) - my * (ω i * x i) - mx * (ω i * y i) + mx * my * ω i := by
      intro i; ring
    simp_rw [hterm, sum_add_distrib, sum_sub_distrib, ← mul_sum, h1]
    rw [← hmx, ← hmy]; ring
  have hXX : ∑ i ∈ S, ω i * (x i - mx) ^ 2 = ∑ i ∈ S, ω i * x i ^ 2 - mx ^ 2 := by
    have hterm : ∀ i, ω i * (x i - mx) ^ 2 =
        ω i * x i ^ 2 - 2 * mx * (ω i * x i) + mx ^ 2 * ω i := by
      intro i; ring
    simp_rw [hterm, sum_add_distrib, sum_sub_distrib, ← mul_sum, h1]
    rw [← hmx]; ring
  have hYY : ∑ i ∈ S, ω i * (y i - my) ^ 2 = ∑ i ∈ S, ω i * y i ^ 2 - my ^ 2 := by
    have hterm : ∀ i, ω i * (y i - my) ^ 2 =
        ω i * y i ^ 2 - 2 * my * (ω i * y i) + my ^ 2 * ω i := by
      intro i; ring
    simp_rw [hterm, sum_add_distrib, sum_sub_distrib, ← mul_sum, h1]
    rw [← hmy]; ring
  have hcs := Finset.sum_sq_le_sum_mul_sum_of_sq_eq_mul S
    (r := fun i => ω i * ((x i - mx) * (y i - my)))
    (f := fun i => ω i * (x i - mx) ^ 2) (g := fun i => ω i * (y i - my) ^ 2)
    (fun i hi => mul_nonneg (h0 i hi) (sq_nonneg _))
    (fun i hi => mul_nonneg (h0 i hi) (sq_nonneg _)) (fun i hi => by ring)
  rw [hXY, hXX, hYY] at hcs
  exact hcs

theorem conv_as_prod_sum (s : ℕ) (img win : Img) (n k i j : ℕ) :
    conv2dValid s img win n k i j =
      ∑ z ∈ range s ×ˢ range s, win k 0 z.1 z.2 * img n k (i + z.1) (j + z.2) := by
  rw [Finset.sum_product]
  unfold conv2dValid
  exact sum_congr rfl fun p _ => sum_congr rfl fun q _ => mul_comm _ _

theorem convMul_as_prod_sum (s : ℕ) (img1 img2 win : Img) (n k i j : ℕ) :
    conv2dValid s (fun n k i j => img1 n k i j * img2 n k i j) win n k i j =
      ∑ z ∈ range s ×ˢ range s,
        win k 0 z.1 z.2 * (img1 n k (i + z.1) (j + z.2) * img2 n k (i + z.1) (j + z.2)) := by
  rw [Finset.sum_product]
  unfold conv2dValid
  exact sum_congr rfl fun p _ => sum_congr rfl fun q _ => mul_comm _ _

theorem window_sum_prod_one (s : ℕ) (hs : 1 ≤ s) (k : ℕ) :
    ∑ z ∈ range s ×ˢ range s, create_window s k 0 z.1 z.2 = 1 := by
  rw [Finset.sum_product]
  exact window_sum_one s hs k 0

theorem sigmaSqMap_nonneg (h w : ℕ) (hh : 1 ≤ h) (hw : 1 ≤ w) (img : Img)
    (n k i j : ℕ) : 0 ≤ sigmaSqMap h w img n k i j := by
  have hs := realSize_pos h w hh hw
  unfold sigmaSqMap muMap
  rw [convMul_as_prod_sum _ img img, conv_as_prod_sum, sub_nonneg]
  refine le_trans (wvar_nonneg (range (realSize h w) ×ˢ range (realSize h w))
    (fun z => create_window (realSize h w) k 0 z.1 z.2)
    (fun z => img n k (i + z.1) (j + z.2))
    (fun z _ => create_window_nonneg _ k 0 z.1 z.2)
    (window_sum_prod_one _ hs k)) (le_of_eq ?_)
  exact sum_congr rfl fun z _ => by rw [sq]

theorem sigma12_sq_le_var_mul (h w : ℕ) (hh : 1 ≤ h) (hw : 1 ≤ w)
    (img1 img2 : Img) (n k i j : ℕ) :
    sigma12Map h w img1 img2 n k i j ^ 2 ≤
      sigmaSqMap h w img1 n k i j * sigmaSqMap h w img2 n k i j := by
  have hs := realSize_pos h w hh hw
  have hcs := wcov_sq_le_wvar_mul_wvar (range (realSize h w) ×ˢ range (realSize h w))
    (fun z => create_window (realSize h w) k 0 z.1 z.2)
    (fun z => img1 n k (i + z.1) (j + z.2)) (fun z => img2 n k (i + z.1) (j + z.2))
    (fun z _ => create_window_nonneg _ k 0 z.1 z.2)
    (window_sum_prod_one _ hs k)
  unfold sigma12Map sigmaSqMap muMap
  rw [convMul_as_prod_sum _ img1 img2, convMul_as_prod_sum _ img1 img1,
    convMul_as_prod_sum _ img2 img2, conv_as_prod_sum _ img1, conv_as_prod_sum _ img2]
  have hsq1 : (∑ z ∈ range (realSize h w) ×ˢ range (realSize h w),
      create_window (realSize h w) k 0 z.1 z.2 *
        (img1 n k (i + z.1) (j + z.2) * img1 n k (i + z.1) (j + z.2))) =
      ∑ z ∈ range (realSize h w) ×ˢ range (realSize h w),
        create_window (realSize h w) k 0 z.1 z.2 * img1 n k (i + z.1) (j + z.2) ^ 2 :=
    sum_congr rfl fun z _ => by rw [sq]
  have hsq2 : (∑ z ∈ range (realSize h w) ×ˢ range (realSize h w),
      create_window (realSize h w) k 0 z.1 z.2 *
        (img2 n k (i + z.1) (j + z.2) * img2 n k (i + z.1) (j + z.2))) =
      ∑ z ∈ range (realSize h w) ×ˢ range (realSize h w),
        create_window (realSize h w) k 0 z.1 z.2 * img2 n k (i + z.1) (j + z.2) ^ 2 :=
    sum_congr rfl fun z _ => by rw [sq]
  rw [hsq1, hsq2]
  exact hcs

theorem C1const_pos (d : ℝ) (hd : d = 1 ∨ d = 2 ∨ d = 255) : 0 < C1const d := by
  unfold C1const
  rcases hd with h | h | h <;> rw [h] <;> norm_num

theorem C2const_pos (d : ℝ) (hd : d = 1 ∨ d = 2 ∨ d = 255) : 0 < C2const d := by
  unfold C2const
  rcases hd with h | h | h <;> rw [h] <;> norm_num

theorem abs_lum_le_one (a b C : ℝ) (hC : 0 < C) :
    |(2 * a * b + C) / (a ^ 2 + b ^ 2 + C)| ≤ 1 := by
  have hD : 0 < a ^ 2 + b ^ 2 + C := by positivity
  rw [abs_div, abs_of_pos hD, div_le_one hD, abs_le]
  constructor
  · nlinarith [sq_nonneg (a + b)]
  · nlinarith [sq_nonneg (a - b)]

theorem abs_contrast_le_one (cv v1 v2 C : ℝ) (hC : 0 < C) (h1 : 0 ≤ v1) (h2 : 0 ≤ v2)
    (hcs : cv ^ 2 ≤ v1 * v2) : |(2 * cv + C) / (v1 + v2 + C)| ≤ 1 := by
  have hD : 0 < v1 + v2 + C := by positivity
  rw [abs_div, abs_of_pos hD, div_le_one hD, abs_le]
  constructor
  · nlinarith [sq_nonneg (v1 - v2), sq_nonneg (v1 + v2)]
  · nlinarith [sq_nonneg (v1 - v2), sq_nonneg (v1 + v2)]

theorem ssimMap_abs_le_one (d : ℝ) (h w : ℕ) (img1 img2 : Img) (n k i j : ℕ)
    (hd : d = 1 ∨ d = 2 ∨ d = 255) (hh : 1 ≤ h) (hw : 1 ≤ w) :
    |ssimMap d h w img1 img2 n k i j| ≤ 1 := by
  unfold ssimMap contrastMap
  rw [abs_mul]
  exact mul_le_one₀ (abs_lum_le_one _ _ _ (C1const_pos d hd)) (abs_nonneg _)
    (abs_contrast_le_one _ _ _ _ (C2const_pos d hd)
      (sigmaSqMap_nonneg h w hh hw img1 n k i j)
      (sigmaSqMap_nonneg h w hh hw img2 n k i j)
      (sigma12_sq_le_var_mul h w hh hw img1 img2 n k i j))

theorem meanSpatial_abs_le_one (H W : ℕ) (t : Img) (n k : ℕ)
    (hH : 1 ≤ H) (hW : 1 ≤ W)
    (hb : ∀ i ∈ range H, ∀ j ∈ range W, |t n k i j| ≤ 1) :
    |meanSpatial H W t n k| ≤ 1 := by
  unfold meanSpatial
  have hHW : (0 : ℝ) < (H : ℝ) * (W : ℝ) := by
    have h1 : (0 : ℝ) < (H : ℝ) := by exact_mod_cast hH
    have h2 : (0 : ℝ) < (W : ℝ) := by exact_mod_cast hW
    positivity
  rw [abs_div, abs_of_pos hHW, div_le_one hHW]
  calc |∑ i ∈ range H, ∑ j ∈ range W, t n k i j|
      ≤ ∑ i ∈ range H, |∑ j ∈ range W, t n k i j| := abs_sum_le_sum_abs _ _
    _ ≤ ∑ i ∈ range H, ∑ j ∈ range W, |t n k i j| :=
        sum_le_sum fun i _ => abs_sum_le_sum_abs _ _
    _ ≤ ∑ i ∈ range H, ∑ j ∈ range W, (1 : ℝ) :=
        sum_le_sum fun i hi => sum_le_sum (hb i hi)
    _ = (H : ℝ) * (W : ℝ) := by
        simp [mul_comm]

theorem ssimMap_self_eq_one (d : ℝ) (h w : ℕ) (img : Img) (n k i j : ℕ)
    (hd : d = 1 ∨ d = 2 ∨ d = 255) (hh : 1 ≤ h) (hw : 1 ≤ w) :
    ssimMap d h w img img n k i j = 1 := by
  have hC1 := C1const_pos d hd
  have hC2 := C2const_pos d hd
  have hvar := sigmaSqMap_nonneg h w hh hw img n k i j
  unfold ssimMap contrastMap
  have h12 : sigma12Map h w img img n k i j = sigmaSqMap h w img n k i j := by
    unfold sigma12Map sigmaSqMap
    rw [sq]
  rw [h12]
  have hL : 2 * muMap h w img n k i j * muMap h w img n k i j + C1const d =
      muMap h w img n k i j ^ 2 + muMap h w img n k i j ^ 2 + C1const d := by ring
  have hK : 2 * sigmaSqMap h w img n k i j + C2const d =
      sigmaSqMap h w img n k i j + sigmaSqMap h w img n k i j + C2const d := by ring
  rw [hL, hK, div_self (add_pos_of_nonneg_of_pos (by positivity) hC1).ne',
    div_self (add_pos_of_nonneg_of_pos (by linarith) hC2).ne', one_mul]

theorem sigmaSqMap_constHalf (h w : ℕ) (hh : 1 ≤ h) (hw : 1 ≤ w) (n k i j : ℕ) :
    sigmaSqMap h w constHalf n k i j = 0 := by
  unfold constHalf
  exact sigmaSqMap_const h w hh hw _ n k i j

theorem weightCode_of_sigma_zero (d : ℝ) (h w : ℕ) (img1 img2 : Img) (n k i j : ℕ)
    (h1 : ∀ i j, sigmaSqMap h w img1 n k i j = 0)
    (h2 : ∀ i j, sigmaSqMap h w img2 n k i j = 0) :
    weightCode d h w img1 img2 n k i j =
      Real.log ((w - realSize h w + 1 : ℕ) : ℝ) := by
  unfold weightCode matmulLast2
  congr 1
  calc (∑ t ∈ range (w - realSize h w + 1),
        (fun n k i j => 1 + sigmaSqMap h w img1 n k i j / C2const d) n k i t *
          (fun n k i j => 1 + sigmaSqMap h w img2 n k i j / C2const d) n k t j)
      = ∑ t ∈ range (w - realSize h w + 1), (1 : ℝ) :=
        sum_congr rfl fun t _ => by simp [h1, h2]
    _ = ((w - realSize h w + 1 : ℕ) : ℝ) := by simp

/-! ## Claim theorems -/

/-- C1: the claim says the stability weight map equals the ELEMENTWISE
`log((1 + var1/C2)·(1 + var2/C2))` and the code's own docstring agrees,
but line 155 uses `torch.matmul`, a batched MATRIX product over the last
two axes.  At the failing input — two constant 0.5-valued `(1,1,12,12)`
images with `dynamic_range = 1`, whose variance maps are identically 0 so
both factor maps are all-ones 2×2 — the code's weight entry is `log 2`
while the documented elementwise weight is `log 1 = 0`. -/
theorem C1_weight_matmul_differs_from_elementwise :
    weightCode 1 12 12 constHalf constHalf 0 0 0 0 = Real.log 2 ∧
    weightSpec 1 12 12 constHalf constHalf 0 0 0 0 = 0 ∧
    weightCode 1 12 12 constHalf constHalf 0 0 0 0 ≠
      weightSpec 1 12 12 constHalf constHalf 0 0 0 0 := by
  have hσ : ∀ i j, sigmaSqMap 12 12 constHalf 0 0 i j = 0 := fun i j =>
    sigmaSqMap_constHalf 12 12 (by norm_num) (by norm_num) 0 0 i j
  have hcode : weightCode 1 12 12 constHalf constHalf 0 0 0 0 = Real.log 2 := by
    rw [weightCode_of_sigma_zero 1 12 12 _ _ 0 0 0 0 hσ hσ,
      show (12 - realSize 12 12 + 1 : ℕ) = 2 from by decide]
    norm_num
  have hspec : weightSpec 1 12 12 constHalf constHalf 0 0 0 0 = 0 := by
    unfold weightSpec
    simp [hσ, Real.log_one]
  refine ⟨hcode, hspec, ?_⟩
  rw [hcode, hspec]
  have hlog := Real.log_pos (by norm_num : (1 : ℝ) < 2)
  exact hlog.ne'

/-- C10: unweighted SSIM is symmetric in its two image arguments — every
term of the SSIM map (`2·mu1·mu2 + C1`, `mu1² + mu2² + C1`, `2·cov + C2`,
`var1 + var2 + C2`) is invariant under swapping the inputs, and the
spatial mean preserves this. -/
theorem C10_unweighted_ssim_symmetric (d : ℝ) (h w : ℕ) (img1 img2 : Img)
    (n k : ℕ) : ssimU d h w img1 img2 n k = ssimU d h w img2 img1 n k := by
  unfold ssimU meanSpatial
  congr 1
  refine sum_congr rfl fun i _ => sum_congr rfl fun j _ => ?_
  unfold ssimMap contrastMap sigma12Map
  have hc : (fun n k i j => img1 n k i j * img2 n k i j) =
      (fun n k i j => img2 n k i j * img1 n k i j) := by
    funext a b c e
    exact mul_comm _ _
  rw [hc]
  ring

/-- C3 counterexample: with `dynamic_range = 2` and the in-range constant
images `+1` and `-1` (both inside the declared range `[-1, 1]`), the
(1,1,1,1)-shaped inputs give the SSIM scalar
`(-2 + 0.0004)/(2 + 0.0004) < 0` — outside the claimed interval `[0, 1]`. -/
theorem C3_counterexample_ssim_below_zero :
    ssimU 2 1 1 constOne constNegOne 0 0 < 0 := by
  have hg : gauss1d 1 0 = 1 := by
    unfold gauss1d
    norm_num [Real.exp_zero]
  have hr : realSize 1 1 = 1 := by decide
  unfold ssimU meanSpatial ssimMap contrastMap sigma12Map sigmaSqMap muMap
    conv2dValid create_window windowTotal constOne constNegOne C1const C2const
  simp only [hr, sum_range_one, hg]
  norm_num

/-- C3 amended: for every pair of inputs (in particular those whose values
respect the declared dynamic range) the scalar returned by (unweighted)
`ssim` lies in the closed interval `[-1, 1]`; it is not confined to
`[0, 1]`. -/
theorem C3_amended_ssim_in_closed_interval (d : ℝ) (h w : ℕ) (img1 img2 : Img)
    (n k : ℕ) (hd : d = 1 ∨ d = 2 ∨ d = 255) (hh : 1 ≤ h) (hw : 1 ≤ w) :
    -1 ≤ ssimU d h w img1 img2 n k ∧ ssimU d h w img1 img2 n k ≤ 1 := by
  rw [← abs_le]
  unfold ssimU
  exact meanSpatial_abs_le_one _ _ _ n k (Nat.succ_le_succ (Nat.zero_le _))
    (Nat.succ_le_succ (Nat.zero_le _))
    fun i _ j _ => ssimMap_abs_le_one d h w img1 img2 n k i j hd hh hw

/-- C3 witness: the amended bound applied at a concrete in-range input. -/
theorem C3_amended_witness :
    -1 ≤ ssimU 1 1 1 constHalf constHalf 0 0 ∧
      ssimU 1 1 1 constHalf constHalf 0 0 ≤ 1 :=
  C3_amended_ssim_in_closed_interval 1 1 1 constHalf constHalf 0 0 (Or.inl rfl)
    (by norm_num) (by norm_num)

/-- C2 amended: for identical inputs, unweighted SSIM is exactly 1 for
every valid dynamic range; weighted SSIM is 1 whenever the stability
weight map has nonzero spatial sum (and the spatial extents are equal, so
that the code's matmul of the weight factors is defined).  When the weight
map sums to zero — e.g. for constant images — the weighted version is
`0/0`, a float `nan`, not 1. -/
theorem C2_amended_ssim_self_one (d : ℝ) (h w : ℕ) (img : Img) (n k : ℕ)
    (hd : d = 1 ∨ d = 2 ∨ d = 255) (hh : 1 ≤ h) (hw : 1 ≤ w) :
    ssimU d h w img img n k = 1 ∧
      (h = w → weightTotal d h w img img n k ≠ 0 → ssimW d h w img img n k = 1) := by
  constructor
  · unfold ssimU meanSpatial
    rw [sum_congr rfl fun i _ => sum_congr rfl fun j _ =>
      ssimMap_self_eq_one d h w img n k i j hd hh hw]
    simp only [sum_const, card_range, nsmul_eq_mul, mul_one]
    have hH : (0 : ℝ) < ((h - realSize h w + 1 : ℕ) : ℝ) := by
      exact_mod_cast Nat.succ_pos (h - realSize h w)
    have hW : (0 : ℝ) < ((w - realSize h w + 1 : ℕ) : ℝ) := by
      exact_mod_cast Nat.succ_pos (w - realSize h w)
    exact div_self (mul_pos hH hW).ne'
  · intro _ hne
    unfold ssimW
    rw [sum_congr rfl fun i _ => sum_congr rfl fun j _ => by
      rw [ssimMap_self_eq_one d h w img n k i j hd hh hw, one_mul]]
    exact div_self hne

/-- C2 counterexample: for the constant 0.5-valued `(1,1,1,1)` image with
`dynamic_range = 1`, the weight map is identically `log 1 = 0`, so
weighted SSIM of the image with itself is `0/0` — `nan` in torch, 0 under
Lean's division convention — and in particular NOT 1, refuting the claim
for `weighted=True`. -/
theorem C2_counterexample_weighted_self_nan :
    ssimW 1 1 1 constHalf constHalf 0 0 = 0 ∧
      ssimW 1 1 1 constHalf constHalf 0 0 ≠ 1 := by
  have hσ : ∀ i j, sigmaSqMap 1 1 constHalf 0 0 i j = 0 := fun i j =>
    sigmaSqMap_constHalf 1 1 le_rfl le_rfl 0 0 i j
  have hwc : ∀ i j, weightCode 1 1 1 constHalf constHalf 0 0 i j = 0 := by
    intro i j
    rw [weightCode_of_sigma_zero 1 1 1 _ _ 0 0 i j hσ hσ,
      show (1 - realSize 1 1 + 1 : ℕ) = 1 from by decide]
    norm_num
  have hwt : weightTotal 1 1 1 constHalf constHalf 0 0 = 0 := by
    unfold weightTotal
    exact sum_eq_zero fun i _ => sum_eq_zero fun j _ => hwc i j
  have hz : ssimW 1 1 1 constHalf constHalf 0 0 = 0 := by
    unfold ssimW
    rw [hwt, div_zero]
  exact ⟨hz, by rw [hz]; norm_num⟩

/-- C2 witness: at a constant 0.5-valued `(1,1,12,12)` image the weight
map is constantly `log 2`, whose sum is nonzero, so both the unweighted
and the weighted self-SSIM equal 1 by the amended theorem. -/
theorem C2_amended_witness :
    ssimU 1 12 12 constHalf constHalf 0 0 = 1 ∧
      ssimW 1 12 12 constHalf constHalf 0 0 = 1 := by
  have hσ : ∀ i j, sigmaSqMap 12 12 constHalf 0 0 i j = 0 := fun i j =>
    sigmaSqMap_constHalf 12 12 (by norm_num) (by norm_num) 0 0 i j
  have hwc : ∀ i j, weightCode 1 12 12 constHalf constHalf 0 0 i j = Real.log 2 := by
    intro i j
    rw [weightCode_of_sigma_zero 1 12 12 _ _ 0 0 i j hσ hσ,
      show (12 - realSize 12 12 + 1 : ℕ) = 2 from by decide]
    norm_num
  have hlog := Real.log_pos (by norm_num : (1 : ℝ) < 2)
  have hwt : weightTotal 1 12 12 constHalf constHalf 0 0 ≠ 0 := by
    unfold weightTotal
    rw [show (12 - realSize 12 12 + 1 : ℕ) = 2 from by decide,
      sum_congr rfl fun i _ => sum_congr rfl fun j _ => hwc i j]
    simp only [sum_const, card_range, nsmul_eq_mul]
    push_cast
    nlinarith [hlog]
  have hmain := C2_amended_ssim_self_one 1 12 12 constHalf 0 0 (Or.inl rfl)
    (by norm_num) (by norm_num)
  exact ⟨hmain.1, hmain.2 rfl hwt⟩

/-- C8: the window `_ssim_parts` builds has size `s = min(11, h, w)`,
shape `(c, 1, s, s)`, non-negative entries, each channel slice the
normalized outer product of the centered std-1.5 1d Gaussian with itself,
and each channel slice sums exactly to 1 over its spatial extent. -/
theorem C8_create_window_properties (c h w : ℕ) (_hc : 1 ≤ c) (hh : 1 ≤ h)
    (hw : 1 ≤ w) :
    realSize h w = min 11 (min h w) ∧
    createWindowShape (realSize h w) c = [c, 1, min 11 (min h w), min 11 (min h w)] ∧
    (∀ k o p q, 0 ≤ create_window (realSize h w) k o p q) ∧
    (∀ k o, ∑ p ∈ range (realSize h w), ∑ q ∈ range (realSize h w),
        create_window (realSize h w) k o p q = 1) ∧
    (∀ k o p q, create_window (realSize h w) k o p q =
        gauss1d (realSize h w) p * gauss1d (realSize h w) q /
          windowTotal (realSize h w)) :=
  ⟨rfl, rfl, fun k o p q => create_window_nonneg _ k o p q,
    fun k o => window_sum_one _ (realSize_pos h w hh hw) k o,
    fun _ _ _ _ => rfl⟩

/-- C8 witness: the window properties at `c = 1`, `h = 5`, `w = 3`
(size capped at `min(11, 5, 3) = 3`). -/
theorem C8_witness :
    (∀ k o, ∑ p ∈ range (realSize 5 3), ∑ q ∈ range (realSize 5 3),
        create_window (realSize 5 3) k o p q = 1) ∧
    createWindowShape (realSize 5 3) 1 = [1, 1, 3, 3] := by
  have hmain := C8_create_window_properties 1 5 3 (by norm_num) (by norm_num)
    (by norm_num)
  exact ⟨hmain.2.2.2.1, hmain.2.1.trans (by decide)⟩

/-- C4 amended (the part that does hold): the broadcast law for the SSIM
entry points — a spatial mismatch raises (before any windowed
computation), compatible batch sizes broadcast to a leading dimension of
`max(size_A, size_B)` with the channel count preserved, and incompatible
batch sizes raise. -/
theorem C4_amended_broadcast_law_ssim (b1 c h w b2 : ℕ) :
    ((b1 = b2 ∨ b1 = 1 ∨ b2 = 1) →
      ssimShape b1 c h w b2 c h w = some (max b1 b2, c)) ∧
    (b1 ≠ b2 ∧ b1 ≠ 1 ∧ b2 ≠ 1 → ssimShape b1 c h w b2 c h w = none) ∧
    (∀ h2 w2, ¬(h2 = h ∧ w2 = w) → ssimShape b1 c h w b2 c h2 w2 = none) := by
  refine ⟨fun hb => ?_, fun hb => ?_, fun h2 w2 hs => ?_⟩
  · unfold ssimShape
    rw [if_neg (by tauto), if_neg (by tauto), if_neg (by tauto)]
  · unfold ssimShape
    rw [if_neg (by tauto), if_pos hb]
  · unfold ssimShape
    rw [if_pos hs]

/-- C4 counterexample: `nlpd` is a metric entry point taking two 4d image
batches with equal height and width, yet with batch sizes 3 and 2 —
different, neither equal to 1 — it does NOT raise: the concatenation,
decomposition and the `y[i][0] - y[i][1]` indexing all succeed and a 0-d
scalar (shape `[]`, which has no leading dimension `max(3,2)`) is
returned, refuting the claim's universal raise requirement. -/
theorem C4_counterexample_nlpd_accepts_mismatched_batches :
    nlpdShape 3 1 64 64 2 1 64 64 = some [] := by decide

/-- C4 witness: the SSIM law at concrete shapes — batch sizes (3, 1)
broadcast to leading dimension 3, batch sizes (3, 2) raise. -/
theorem C4_amended_witness :
    ssimShape 3 1 5 5 1 1 5 5 = some (3, 1) ∧ ssimShape 3 1 5 5 2 1 5 5 = none :=
  ⟨(C4_amended_broadcast_law_ssim 3 1 5 5 1).1 (Or.inr (Or.inr rfl)),
    (C4_amended_broadcast_law_ssim 3 1 5 5 2).2.1 (by decide)⟩

/-- C6 counterexample: a `(1,1,1,1)` window holding 0.5 has per-channel
spatial sum `0.5 ≠ 1`, yet the gate of `_ssim_parts` emits NO warning and
does NOT renormalize it — the code's test is `sum > 1`, not `sum != 1` —
refuting the claim that every non-unit-sum window is warned about and
renormalized. -/
theorem C6_counterexample_small_sum_window_untouched :
    chanSum 1 1 halfWindow 0 0 ≠ 1 ∧
      checkWindow 1 1 1 1 halfWindow = (false, halfWindow) := by
  have hs : ∀ k j, chanSum 1 1 halfWindow k j = 1 / 2 := by
    intro k j
    unfold chanSum halfWindow
    simp
  constructor
  · rw [hs]
    norm_num
  · unfold checkWindow
    rw [if_neg]
    push_neg
    intro k _ j _
    rw [hs]
    norm_num

/-- C6 amended: the gate warns and renormalizes exactly when some
per-channel spatial sum EXCEEDS 1 (all channels are then divided by their
own sums); a window whose per-channel sums are all ≤ 1 — even when they
differ from 1 — is used unchanged with no warning; and a window that is
not 4-dimensional causes a fatal raise. -/
theorem C6_amended_window_gate (ndim c o s t : ℕ) (win : Img) :
    ((∃ k ∈ range c, ∃ j ∈ range o, 1 < chanSum s t win k j) →
      checkWindow c o s t win =
        (true, fun k j p q => win k j p q / chanSum s t win k j)) ∧
    ((∀ k ∈ range c, ∀ j ∈ range o, chanSum s t win k j ≤ 1) →
      checkWindow c o s t win = (false, win)) ∧
    (ndim ≠ 4 → windowGate ndim c o s t win = none) ∧
    (ndim = 4 → windowGate ndim c o s t win = some (checkWindow c o s t win)) := by
  refine ⟨fun hex => ?_, fun hle => ?_, fun hnd => ?_, fun hnd => ?_⟩
  · unfold checkWindow
    rw [if_pos hex]
  · unfold checkWindow
    rw [if_neg]
    push_neg
    intro k hk j hj
    exact hle k hk j hj
  · unfold windowGate
    rw [if_neg hnd]
  · unfold windowGate
    rw [if_pos hnd]

/-- C6 witness: a `(1,1,1,1)` window holding 2 (channel sum `2 > 1`) is
renormalized with a warning, and a 3-dimensional window raises. -/
theorem C6_amended_witness :
    checkWindow 1 1 1 1 twoWindow =
      (true, fun k j p q => twoWindow k j p q / chanSum 1 1 twoWindow k j) ∧
    windowGate 3 1 1 1 1 twoWindow = none := by
  have h2 : chanSum 1 1 twoWindow 0 0 = 2 := by
    unfold chanSum twoWindow
    simp
  refine ⟨(C6_amended_window_gate 3 1 1 1 1 twoWindow).1 ?_,
    (C6_amended_window_gate 3 1 1 1 1 twoWindow).2.2.1 (by norm_num)⟩
  exact ⟨0, by simp, 0, by simp, by rw [h2]; norm_num⟩

/-- C5: `nlpd` equals the spec's aggregation formula — the normalized
pyramid of the concatenated batch is split per scale into the image-1 and
image-2 halves along the batch axis, each per-scale distance is
`sqrt(mean((half1 - half2)^2) + 1e-10)` with the epsilon inside the root,
and the result is the mean of the 6 per-scale values. -/
theorem C5_nlpd_matches_spec_formula (lap : Img → Fin 6 → Img) (K : ℕ)
    (filt : Fin 6 → ℕ → ℕ → ℝ) (sigma : Fin 6 → ℝ) (sH sW : Fin 6 → ℕ)
    (c : ℕ) (A B : Img) :
    nlpd lap K filt sigma sH sW c A B =
      nlpdSpecFormula lap K filt sigma sH sW c A B := by
  unfold nlpd nlpdSpecFormula meanSqCHW
  rw [one_div, inv_mul_eq_div]

/-- C7: for any batchwise decomposition, `nlpd(img, img)` on a batch-1
image equals exactly the epsilon floor: every per-scale difference is
identically zero, each per-scale term is `sqrt(1e-10) = 1e-5`, and the
mean of the six terms is `1e-5`. -/
theorem C7_nlpd_self_is_epsilon_floor (lap : Img → Fin 6 → Img) (K : ℕ)
    (filt : Fin 6 → ℕ → ℕ → ℝ) (sigma : Fin 6 → ℝ) (sH sW : Fin 6 → ℕ)
    (c : ℕ) (A : Img) (hlap : BatchwisePyr lap) :
    nlpd lap K filt sigma sH sW c A A = 1e-5 := by
  have hcat : ∀ k p q, catBatch 1 A A 0 k p q = catBatch 1 A A 1 k p q := by
    intro k p q
    unfold catBatch
    norm_num
  have hl : ∀ (i : Fin 6) (k p q : ℕ),
      lap (catBatch 1 A A) i 0 k p q = lap (catBatch 1 A A) i 1 k p q :=
    fun i => hlap (catBatch 1 A A) (catBatch 1 A A) i 0 1 hcat
  have hy : ∀ (i : Fin 6) (k p q : ℕ),
      normalizedLapPyr lap K filt sigma sH sW (catBatch 1 A A) i 0 k p q =
        normalizedLapPyr lap K filt sigma sH sW (catBatch 1 A A) i 1 k p q := by
    intro i k p q
    unfold normalizedLapPyr
    have habs : (fun a b => |lap (catBatch 1 A A) i 0 k a b|) =
        (fun a b => |lap (catBatch 1 A A) i 1 k a b|) := by
      funext a b
      rw [hl i k a b]
    rw [hl i k p q, habs]
  have hterm : ∀ i : Fin 6,
      Real.sqrt
        (meanSqCHW c (sH i) (sW i)
            (fun k p q =>
              normalizedLapPyr lap K filt sigma sH sW (catBatch 1 A A) i 0 k p q -
                normalizedLapPyr lap K filt sigma sH sW (catBatch 1 A A) i 1 k p q) +
          1e-10) = 1e-5 := by
    intro i
    have hfun : (fun k p q =>
        normalizedLapPyr lap K filt sigma sH sW (catBatch 1 A A) i 0 k p q -
          normalizedLapPyr lap K filt sigma sH sW (catBatch 1 A A) i 1 k p q) =
        (fun _ _ _ => (0 : ℝ)) := by
      funext k p q
      rw [hy i k p q, sub_self]
    rw [hfun]
    have hzero : meanSqCHW c (sH i) (sW i) (fun _ _ _ => (0 : ℝ)) = 0 := by
      unfold meanSqCHW
      simp
    rw [hzero, zero_add, show (1e-10 : ℝ) = (1e-5 : ℝ) ^ 2 by norm_num,
      Real.sqrt_sq (by norm_num)]
  unfold nlpd
  rw [sum_congr rfl fun i _ => hterm i, sum_const, card_univ]
  simp only [Fintype.card_fin, nsmul_eq_mul]
  norm_num

/-- C7 witness: the epsilon floor at a concrete instantiation — identity
decomposition, zero pooling filters, unit sigmas, 1×1 scales, the zero
image. -/
theorem C7_witness :
    nlpd idLap 5 (fun _ _ _ => 0) (fun _ => 1) (fun _ => 1) (fun _ => 1) 1
      constZero constZero = 1e-5 :=
  C7_nlpd_self_is_epsilon_floor idLap 5 (fun _ _ _ => 0) (fun _ => 1) (fun _ => 1)
    (fun _ => 1) 1 constZero (fun _ _ _ _ _ heq k p q => heq k p q)

theorem runSteps_assigns_no_error {V : Type}
    (attrOk lossOk : (String → Option V) → String → Bool) :
    ∀ (l : List (String × V)) (s : String → Option V),
      (runSteps attrOk lossOk (l.map (fun kv => LoadStep.assign kv.1 kv.2)) s).2 =
        none := by
  intro l
  induction l with
  | nil => intro s; rfl
  | cons kv rest ih => intro s; exact ih (setAttr s kv.1 kv.2)

theorem runSteps_losses_atomic {V : Type}
    (attrOk lossOk : (String → Option V) → String → Bool)
    (tmpDict : List (String × V)) :
    ∀ (cls : List String) (s : String → Option V) (e : String),
      (runSteps attrOk lossOk (cls.map LoadStep.checkLoss ++
          tmpDict.map (fun kv => LoadStep.assign kv.1 kv.2)) s).2 = some e →
        (runSteps attrOk lossOk (cls.map LoadStep.checkLoss ++
            tmpDict.map (fun kv => LoadStep.assign kv.1 kv.2)) s).1 = s := by
  intro cls
  induction cls with
  | nil =>
    intro s e herr
    rw [List.map_nil, List.nil_append] at herr
    rw [runSteps_assigns_no_error] at herr
    exact absurd herr (by simp)
  | cons a rest ih =>
    intro s e herr
    rw [List.map_cons, List.cons_append] at herr ⊢
    by_cases hok : lossOk s a
    · simp only [runSteps, hok, if_true] at herr ⊢
      exact ih s e herr
    · simp [runSteps, hok]

theorem runSteps_checks_atomic {V : Type}
    (attrOk lossOk : (String → Option V) → String → Bool)
    (checkLosses : List String) (tmpDict : List (String × V)) :
    ∀ (cas : List String) (s : String → Option V) (e : String),
      (runSteps attrOk lossOk (loadSteps cas checkLosses tmpDict) s).2 = some e →
        (runSteps attrOk lossOk (loadSteps cas checkLosses tmpDict) s).1 = s := by
  intro cas
  induction cas with
  | nil =>
    intro s e herr
    unfold loadSteps at herr ⊢
    rw [List.map_nil, List.nil_append] at herr ⊢
    exact runSteps_losses_atomic attrOk lossOk tmpDict checkLosses s e herr
  | cons a rest ih =>
    intro s e herr
    unfold loadSteps at herr ⊢
    rw [List.map_cons, List.cons_append] at herr ⊢
    by_cases hok : attrOk s a
    · simp only [runSteps, hok, if_true] at herr ⊢
      exact ih s e herr
    · simp [runSteps, hok]

/-- C9: `Synthesis.load` is atomic on failure — when any
`check_attributes` or `check_loss_functions` comparison raises, the
attribute store is exactly as it was before the call: every `setattr`
happens in the final loop, which runs only after all checks have passed. -/
theorem C9_load_atomic_on_failure {V : Type}
    (attrOk lossOk : (String → Option V) → String → Bool)
    (checkAttrs checkLosses : List String) (tmpDict : List (String × V))
    (s0 : String → Option V) (e : String)
    (herr : (synthesisLoad attrOk lossOk checkAttrs checkLosses tmpDict s0).2 =
      some e) :
    (synthesisLoad attrOk lossOk checkAttrs checkLosses tmpDict s0).1 = s0 :=
  runSteps_checks_atomic attrOk lossOk checkLosses tmpDict checkAttrs s0 e herr

/-- C9 witness: a failing attribute check (the oracle rejects `"a"`)
leaves the empty store untouched even though the loaded dictionary holds a
value for `"a"`. -/
theorem C9_witness :
    (synthesisLoad (fun _ _ => false) (fun _ _ => true) ["a"] [] [("a", (5 : ℕ))]
        (fun _ => none)).1 = (fun _ => none) :=
  C9_load_atomic_on_failure (fun _ _ => false) (fun _ _ => true) ["a"] []
    [("a", (5 : ℕ))] (fun _ => none) "a" rfl
